import Mathlib

/-!
Verification development for the WorkDocs-CLI batch uploader.

The definitions below are a shallow embedding of the TypeScript sources:
  * `src/utils/retry.ts` — `withRetry`, `RetryOptions`, `defaultRetryOptions`,
    `CircuitBreaker`;
  * `src/services/upload-orchestrator.ts` — chunked batch loop, consecutive
    failure safety valve, worker validation cache;
  * `src/services/oauth.ts` — token cache and single-flight refresh
    deduplication;
  * `src/services/workday-api.ts` — input-format validators, `validateWorker`,
    `uploadDocument`;
  * `src/services/file-processor.ts` — filename employee-id extraction.

Timestamps are embedded as natural numbers of milliseconds.  Asynchronous
operations are embedded as explicit state passing: an operation that the code
awaits is a function from the attempt index to an `Except` value, and
event-interleaved code (the OAuth single-flight logic) is a step function on
an explicit state type, one transition per atomic synchronous section of the
JavaScript code.
-/

set_option maxRecDepth 8000

namespace WorkDocs

/-! ## Retry layer (src/utils/retry.ts lines 3-97) -/

/-- Shape of the error value inspected by the default `shouldRetry` predicate
(retry.ts lines 16-34): an optional Node error `code` and an optional HTTP
response `status`. -/
structure ApiError where
  code : Option String
  status : Option Nat
deriving DecidableEq, Repr

/-- Retry policy record (retry.ts lines 3-9).  The TypeScript `shouldRetry`
field is optional; merging call-site options over `defaultRetryOptions`
always yields a concrete predicate, which is what this embedding carries. -/
structure RetryOptions (E : Type) where
  maxAttempts : Nat
  baseDelay : Nat
  maxDelay : Nat
  backoffMultiplier : Nat
  shouldRetry : E → Bool

/-- Default retryable-failure classification (retry.ts lines 16-34): retry on
the three transient network error codes, on HTTP status at least 500, and on
status 429; everything else is non-retryable. -/
def defaultShouldRetry (e : ApiError) : Bool :=
  if e.code = some "ECONNRESET" ∨ e.code = some "ETIMEDOUT" ∨
      e.code = some "ENOTFOUND" then
    true
  else if (match e.status with | some s => decide (500 ≤ s) | none => false) then
    true
  else if e.status = some 429 then
    true
  else
    false

/-- Default retry options (retry.ts lines 11-15). -/
def defaultRetryOptions : RetryOptions ApiError :=
  { maxAttempts := 3
    baseDelay := 1000
    maxDelay := 30000
    backoffMultiplier := 2
    shouldRetry := defaultShouldRetry }

/-- Backoff delay computed in the catch block of attempt `attempt`
(retry.ts lines 77-80): `min(baseDelay * backoffMultiplier ^ (attempt - 1),
maxDelay)`. -/
def retryDelay (opts : RetryOptions E) (attempt : Nat) : Nat :=
  min (opts.baseDelay * opts.backoffMultiplier ^ (attempt - 1)) opts.maxDelay

/-- Observable trace of one `withRetry` run: the final result (`Except.error
none` models the degenerate `throw undefined` that the source reaches only
when `maxAttempts = 0`), the number of times the wrapped operation was
invoked, and the list of backoff delays slept, in order. -/
structure RetryTrace (E A : Type) where
  result : Except (Option E) A
  invocations : Nat
  delays : List Nat
deriving Repr

/-- Loop body of `withRetry` (retry.ts lines 45-89).  `fuel` counts the
remaining loop iterations (`maxAttempts - attempt + 1` at every call),
`attempt` is the 1-based attempt counter, and the last argument is the
`lastError` variable.  The wrapped operation is embedded as a function from
the attempt number to that attempt's outcome. -/
def withRetryGo (opts : RetryOptions E) (op : Nat → Except E A) :
    Nat → Nat → Option E → RetryTrace E A
  | 0, _, lastError => ⟨Except.error lastError, 0, []⟩
  | fuel + 1, attempt, _ =>
    match op attempt with
    | Except.ok a => ⟨Except.ok a, 1, []⟩
    | Except.error e =>
      if opts.maxAttempts ≤ attempt then
        ⟨Except.error (some e), 1, []⟩
      else if opts.shouldRetry e = false then
        ⟨Except.error (some e), 1, []⟩
      else
        let rest := withRetryGo opts op fuel (attempt + 1) (some e)
        ⟨rest.result, rest.invocations + 1, retryDelay opts attempt :: rest.delays⟩

/-- Entry point of `withRetry` (retry.ts lines 37-93): run the loop from
attempt 1 with `lastError` initially undefined. -/
def withRetry (opts : RetryOptions E) (op : Nat → Except E A) : RetryTrace E A :=
  withRetryGo opts op opts.maxAttempts 1 none

/-- Default options widened to 8 attempts, used to evaluate the documented
delay sequence. -/
def retryOptions8 : RetryOptions ApiError :=
  { defaultRetryOptions with maxAttempts := 8 }

/-- An operation that fails every attempt with a retryable HTTP 500. -/
def alwaysServerError : Nat → Except ApiError String :=
  fun _ => Except.error ⟨none, some 500⟩

/-- An operation that fails attempt 1 with a retryable connection reset and
every later attempt with a non-retryable HTTP 404. -/
def flakyThen404 : Nat → Except ApiError String :=
  fun i =>
    if i = 1 then Except.error ⟨some "ECONNRESET", none⟩
    else Except.error ⟨none, some 404⟩

/-! ## Circuit breaker (src/utils/retry.ts lines 99-153) -/

/-- The three breaker states (retry.ts line 102). -/
inductive CBState
  | CLOSED
  | OPEN
  | HALF_OPEN
deriving DecidableEq, Repr

/-- Circuit breaker instance state: the constructor parameters `threshold`
and `timeout` together with the mutable fields `failures`,
`lastFailureTime` and `state` (retry.ts lines 100-107). -/
structure CircuitBreaker where
  threshold : Nat
  timeout : Nat
  failures : Nat
  lastFailureTime : Nat
  state : CBState
deriving DecidableEq, Repr

/-- A freshly constructed breaker (retry.ts lines 100-107): zero failures,
zero last-failure time, CLOSED. -/
def CircuitBreaker.mk0 (threshold timeout : Nat) : CircuitBreaker :=
  ⟨threshold, timeout, 0, 0, CBState.CLOSED⟩

/-- `onSuccess` (retry.ts lines 129-135): reset the failure counter; close
the breaker if it was HALF_OPEN. -/
def CircuitBreaker.onSuccess (cb : CircuitBreaker) : CircuitBreaker :=
  let cb1 := { cb with failures := 0 }
  if cb1.state = CBState.HALF_OPEN then { cb1 with state := CBState.CLOSED } else cb1

/-- `onFailure` (retry.ts lines 137-148): increment the failure counter,
record the failure timestamp, and open the breaker once the counter reaches
the threshold. -/
def CircuitBreaker.onFailure (cb : CircuitBreaker) (now : Nat) : CircuitBreaker :=
  let cb1 := { cb with failures := cb.failures + 1, lastFailureTime := now }
  if cb1.threshold ≤ cb1.failures then { cb1 with state := CBState.OPEN } else cb1

/-- Observable outcome of one `CircuitBreaker.execute` call: the breaker
rejected fast, or the wrapped operation was run and succeeded or failed. -/
inductive CBOutcome (E A : Type)
  | breakerOpen
  | ok (a : A)
  | err (e : E)
deriving DecidableEq, Repr

/-- `execute` (retry.ts lines 109-127) at wall-clock time `now`, where
`opResult` is what the wrapped operation would produce were it invoked.
Returns the outcome, the updated breaker, and whether the wrapped operation
was actually invoked. -/
def CircuitBreaker.execute (cb : CircuitBreaker) (now : Nat) (opResult : Except E A) :
    CBOutcome E A × CircuitBreaker × Bool :=
  if cb.state = CBState.OPEN ∧ now - cb.lastFailureTime < cb.timeout then
    (CBOutcome.breakerOpen, cb, false)
  else
    let cb1 := if cb.state = CBState.OPEN then { cb with state := CBState.HALF_OPEN } else cb
    match opResult with
    | Except.ok a => (CBOutcome.ok a, cb1.onSuccess, true)
    | Except.error e => (CBOutcome.err e, cb1.onFailure now, true)

/-- One step of a breaker history: apply `execute` at the given time with the
given operation outcome and keep the updated breaker. -/
def CircuitBreaker.execStep (cb : CircuitBreaker) (ev : Nat × Except Unit Unit) :
    CircuitBreaker :=
  (cb.execute ev.1 ev.2).2.1

/-- Breaker after a whole history of `execute` calls. -/
def CircuitBreaker.execSeq (cb : CircuitBreaker) (evs : List (Nat × Except Unit Unit)) :
    CircuitBreaker :=
  evs.foldl CircuitBreaker.execStep cb

/-- Breakers reachable from a freshly constructed instance with the given
threshold and timeout by some history of `execute` calls. -/
def CircuitBreaker.Reachable (threshold timeout : Nat) (cb : CircuitBreaker) : Prop :=
  ∃ evs : List (Nat × Except Unit Unit), cb = (CircuitBreaker.mk0 threshold timeout).execSeq evs

/-! ## Batch orchestrator loop (src/services/upload-orchestrator.ts)

For the safety-valve claim only an item's success flag matters, so an item is
embedded as a `Bool` (`true` = its `UploadResult.success`).  Within a chunk
the source runs items concurrently and each completion either resets the
consecutive-failure counter (on success) or increments it; the embedding
linearises a chunk in list order, which realises one of the admissible
completion orders.  The interactive confirmation collaborator
(`promptConfirmation`) is embedded as an oracle from the number of prompts
already asked to the boolean answer. -/

/-- The orchestrator fields that the safety valve reads and writes
(upload-orchestrator.ts lines 310-311). -/
structure OrchState where
  consecutiveFailures : Nat
  shouldCheckForFailures : Bool
deriving DecidableEq, Repr

/-- Per-item counter update performed by `processFile`
(upload-orchestrator.ts lines 526 and 464/493/536/555): any success resets
the consecutive-failure counter to zero, any failure increments it. -/
def processOne (s : OrchState) (success : Bool) : OrchState :=
  if success then { s with consecutiveFailures := 0 }
  else { s with consecutiveFailures := s.consecutiveFailures + 1 }

/-- `checkConsecutiveFailures` (upload-orchestrator.ts lines 587-617):
when at least 10 items have been processed overall and the
consecutive-failure counter is at least 10, ask the confirmation oracle;
a no answer permanently disables the check and signals stop, a yes answer
resets the counter.  Returns (stop signal, updated state, updated prompt
count). -/
def checkConsecutiveFailures (s : OrchState) (totalProcessed : Nat)
    (oracle : Nat → Bool) (asks : Nat) : Bool × OrchState × Nat :=
  if 10 ≤ totalProcessed ∧ 10 ≤ s.consecutiveFailures then
    if oracle asks then
      (false, { s with consecutiveFailures := 0 }, asks + 1)
    else
      (true, { s with shouldCheckForFailures := false }, asks + 1)
  else
    (false, s, asks)

/-- Observable outcome of the chunk loop: the per-item success flags of the
items actually processed in order, whether the run stopped early on a
declined prompt, the final orchestrator state, and the number of prompts
asked. -/
structure RunOutcome where
  results : List Bool
  stopped : Bool
  finalState : OrchState
  asks : Nat
deriving DecidableEq, Repr

/-- The `for (const chunk of chunks)` loop of `uploadAllDocuments`
(upload-orchestrator.ts lines 398-416): process a chunk, then, if the check
is still armed, consult `checkConsecutiveFailures`; a stop signal breaks out
of the loop with the remaining chunks untouched. -/
def runChunksFrom (oracle : Nat → Bool) :
    List (List Bool) → OrchState → Nat → Nat → RunOutcome
  | [], s, asks, _ => ⟨[], false, s, asks⟩
  | chunk :: rest, s, asks, processed =>
    let s1 := chunk.foldl processOne s
    let processed1 := processed + chunk.length
    if s1.shouldCheckForFailures then
      let c := checkConsecutiveFailures s1 processed1 oracle asks
      if c.1 then
        ⟨chunk, true, c.2.1, c.2.2⟩
      else
        let r := runChunksFrom oracle rest c.2.1 c.2.2 processed1
        ⟨chunk ++ r.results, r.stopped, r.finalState, r.asks⟩
    else
      let r := runChunksFrom oracle rest s1 asks processed1
      ⟨chunk ++ r.results, r.stopped, r.finalState, r.asks⟩

/-- `chunkArray` (upload-orchestrator.ts lines 619-625): slice the item list
into groups of `chunkSize`.  The source loop never terminates for
`chunkSize = 0` (the step `i += chunkSize` stalls); that argument is
unreachable because the chunk size is the positive configured concurrency,
and the embedding returns `[]` there. -/
def chunkArray (l : List α) (chunkSize : Nat) : List (List α) :=
  match l, chunkSize with
  | _, 0 => []
  | [], _ + 1 => []
  | x :: xs, m + 1 => (x :: xs).take (m + 1) :: chunkArray (xs.drop m) (m + 1)
termination_by l.length
decreasing_by simp [List.length_drop]; omega

/-- Aggregated statistics returned by `uploadAllDocuments`
(upload-orchestrator.ts lines 421-439): `successful` and `failed` count only
the items that were actually processed (`results`). -/
structure UploadStats where
  totalFiles : Nat
  successful : Nat
  failed : Nat
  results : List Bool
deriving DecidableEq, Repr

/-- Initial orchestrator state (upload-orchestrator.ts lines 310-311). -/
def initialOrchState : OrchState := ⟨0, true⟩

/-- `uploadAllDocuments` (upload-orchestrator.ts lines 343-439) restricted to
its batch loop and statistics: chunk the items, run the chunk loop from the
initial state, and count successes and failures among the processed results
only. -/
def uploadAllDocuments (files : List Bool) (maxConcurrentUploads : Nat)
    (oracle : Nat → Bool) : UploadStats :=
  let r := runChunksFrom oracle (chunkArray files maxConcurrentUploads) initialOrchState 0 0
  ⟨files.length, r.results.count true, r.results.count false, r.results⟩

/-! ## Worker validation cache (src/services/upload-orchestrator.ts lines 297-313, 566-585) -/

/-- Cache TTL: one hour in milliseconds (upload-orchestrator.ts line 313). -/
def WORKER_CACHE_TTL : Nat := 3600000

/-- One `WorkerCache` entry (upload-orchestrator.ts lines 298-303). -/
structure WorkerCacheEntry where
  workerWid : String
  validatedAt : Nat
deriving DecidableEq, Repr

/-- The `workerCache` object, embedded as an association list keyed by
employee id. -/
def WorkerCache := List (String × WorkerCacheEntry)

/-- `getFromWorkerCache` (upload-orchestrator.ts lines 566-578): on a hit
whose age strictly exceeds the TTL, delete the entry and return nothing;
otherwise return the cached worker WID.  Returns the lookup result together
with the (possibly pruned) cache. -/
def getFromWorkerCache (cache : WorkerCache) (employeeId : String) (now : Nat) :
    Option String × WorkerCache :=
  match List.lookup employeeId cache with
  | none => (none, cache)
  | some entry =>
    if WORKER_CACHE_TTL < now - entry.validatedAt then
      (none, cache.filter (fun p => p.1 != employeeId))
    else
      (some entry.workerWid, cache)

/-- `addToWorkerCache` (upload-orchestrator.ts lines 580-585): store the WID
under the employee id with `validatedAt = now`, overwriting any previous
entry for that key. -/
def addToWorkerCache (cache : WorkerCache) (employeeId workerWid : String)
    (now : Nat) : WorkerCache :=
  (employeeId, ⟨workerWid, now⟩) :: cache.filter (fun p => p.1 != employeeId)

/-! ## OAuth token cache and single-flight refresh (src/services/oauth.ts)

The claims concern one scope (one `environment.name` cache key), so the
static maps `tokenCache` and `refreshPromises` are embedded for a single
key: `cache` is the `tokenCache` entry and `inFlight` the `refreshPromises`
entry.  JavaScript is single threaded, so every synchronous section of
`getAccessToken` runs atomically; the embedding is an event-step semantics
with one transition per such section:

  * `arrive c now` — caller `c` runs the synchronous body of
    `getAccessToken` (oauth.ts lines 228-252) at time `now`: use a live
    cached token, else join an in-flight refresh, else register a new
    refresh.
  * `settle res now` — the in-flight refresh settles (the `await
    refreshPromise` at line 255 resumes): on success the token is cached
    with expiry `now + 55 minutes` (lines 308-315); on failure the cache is
    untouched.  Settlement schedules the map cleanup 100 ms later (lines
    260-262).
  * `clearHandle now` — the scheduled `setTimeout` callback fires and
    deletes the `refreshPromises` entry (line 261); `setTimeout` fires no
    earlier than its delay, so the step requires the scheduled time to have
    been reached.

Tokens are embedded as natural numbers. -/

/-- Grace delay before the settled refresh handle is removed from the map
(oauth.ts line 262). -/
def GRACE_DELAY : Nat := 100

/-- Fixed token validity window: 55 minutes from the time the refresh
settles (oauth.ts line 310). -/
def TOKEN_VALIDITY : Nat := 55 * 60 * 1000

/-- What one caller of `getAccessToken` receives: a token straight from the
cache, or the eventual result of the refresh promise with the given id. -/
inductive TokenOutcome
  | cached (token : Nat)
  | joined (refreshId : Nat)
deriving DecidableEq, Repr

/-- Single-scope OAuth service state. -/
structure OAuthState where
  cache : Option (Nat × Nat)
  inFlight : Option Nat
  settledAt : Option Nat
  clearAt : Option Nat
  refreshCount : Nat
  nextId : Nat
  outcomes : List (Nat × TokenOutcome)
deriving DecidableEq, Repr

/-- Events of the single-flight semantics. -/
inductive OAuthEvent
  | arrive (caller : Nat) (now : Nat)
  | settle (res : Option Nat) (now : Nat)
  | clearHandle (now : Nat)
deriving DecidableEq, Repr

/-- Cache-miss path of `getAccessToken` (oauth.ts lines 241-252): join the
in-flight refresh if one exists, otherwise register a fresh refresh promise
(incrementing the count of underlying refresh calls). -/
def arriveRefresh (s : OAuthState) (c : Nat) : OAuthState :=
  match s.inFlight with
  | some id => { s with outcomes := s.outcomes ++ [(c, TokenOutcome.joined id)] }
  | none =>
    { s with
      inFlight := some s.nextId
      settledAt := none
      clearAt := none
      refreshCount := s.refreshCount + 1
      nextId := s.nextId + 1
      outcomes := s.outcomes ++ [(c, TokenOutcome.joined s.nextId)] }

/-- One transition of the single-flight semantics; `none` means the event is
not enabled in the given state (a refresh cannot settle twice, the cleanup
timer cannot fire before settlement or before its scheduled time). -/
def oauthStep (s : OAuthState) (ev : OAuthEvent) : Option OAuthState :=
  match ev with
  | OAuthEvent.arrive c now =>
    match s.cache with
    | some (tok, exp) =>
      if now < exp then
        some { s with outcomes := s.outcomes ++ [(c, TokenOutcome.cached tok)] }
      else
        some (arriveRefresh s c)
    | none => some (arriveRefresh s c)
  | OAuthEvent.settle res now =>
    match s.inFlight, s.settledAt with
    | some _, none =>
      some { s with
        settledAt := some now
        clearAt := some (now + GRACE_DELAY)
        cache := match res with
                 | some tok => some (tok, now + TOKEN_VALIDITY)
                 | none => s.cache }
    | _, _ => none
  | OAuthEvent.clearHandle now =>
    match s.inFlight, s.clearAt with
    | some _, some t =>
      if t ≤ now then
        some { s with inFlight := none, settledAt := none, clearAt := none }
      else
        none
    | _, _ => none

/-- Run a list of events from a state; `none` if any event is not enabled. -/
def oauthRun (s : OAuthState) : List OAuthEvent → Option OAuthState
  | [] => some s
  | ev :: evs =>
    match oauthStep s ev with
    | some s1 => oauthRun s1 evs
    | none => none

/-- A cached credential entry gives no live token at time `now` (missing or
expired). -/
def cacheNotLive (cache : Option (Nat × Nat)) (now : Nat) : Prop :=
  ∀ tok exp, cache = some (tok, exp) → exp ≤ now

/-- Decision taken by the cache check at the top of `getAccessToken`
(oauth.ts lines 231-239): reuse the cached token only while `now` is
strictly before its expiry, otherwise fall through to a refresh. -/
inductive TokenDecision
  | useCached (token : Nat)
  | refresh
deriving DecidableEq, Repr

/-- The cache check of `getAccessToken` (oauth.ts lines 231-239). -/
def getAccessTokenDecision (cache : Option (Nat × Nat)) (now : Nat) : TokenDecision :=
  match cache with
  | some (tok, exp) =>
    if now < exp then TokenDecision.useCached tok else TokenDecision.refresh
  | none => TokenDecision.refresh

/-- Expiry stored by `fetchNewToken` (oauth.ts line 310): 55 minutes from
now.  The server-advertised `expires_in` from the token response is received
(second argument) but never read. -/
def fetchNewTokenExpiry (now : Nat) (serverExpiresIn : Nat) : Nat :=
  now + 55 * 60 * 1000

/-! ## Workday API service (src/services/workday-api.ts) -/

/-- `WorkdayApiService.validateEmployeeId` (workday-api.ts lines 36-40):
the test of the regular expression `^\d{3,12}$` (every character a digit and
the length between 3 and 12) conjoined with the redundant explicit length
bounds. -/
def wd_validateEmployeeId (employeeId : String) : Bool :=
  (employeeId.data.all Char.isDigit &&
      decide (3 ≤ employeeId.data.length) && decide (employeeId.data.length ≤ 12)) &&
    decide (3 ≤ employeeId.data.length) && decide (employeeId.data.length ≤ 12)

/-- Character class `[a-f0-9]` of the WID pattern. -/
def isLowerHexDigit (c : Char) : Bool :=
  (decide (97 ≤ c.toNat) && decide (c.toNat ≤ 102)) ||
    (decide (48 ≤ c.toNat) && decide (c.toNat ≤ 57))

/-- `WorkdayApiService.validateWid` (workday-api.ts lines 46-48): the test of
the regular expression `^[a-f0-9]{32}$` — exactly 32 characters, each a
lowercase hexadecimal digit. -/
def validateWid (wid : String) : Bool :=
  wid.data.all isLowerHexDigit && decide (wid.data.length = 32)

/-- Result record of `validateWorker` (workday-api.ts lines 16-20). -/
structure WorkerValidationResult where
  isValid : Bool
  workerWid : Option String
  error : Option String
deriving DecidableEq, Repr

/-- Retry options passed by `validateWorker` and `uploadDocument`
(workday-api.ts lines 68 and 119): explicit `maxAttempts := 3` merged over
the defaults. -/
def apiRetryOptions : RetryOptions ApiError :=
  { defaultRetryOptions with maxAttempts := 3 }

/-- `WorkerDocument` (workday-api.ts lines 8-14). -/
structure WorkerDocument where
  employeeId : String
  filename : String
  categoryWid : String
  fileContent : String
  mimeType : String
deriving DecidableEq, Repr

/-- `validateWorker` (workday-api.ts lines 50-87).  The SOAP transport is
embedded as `remote`, mapping the attempt number to that attempt's outcome
(a response body or a transport error), and the response parser
`extractWorkerWid` (lines 190-195) as the collaborator `extractWid`.  The
function returns the validation result together with the number of times the
remote SOAP operation was invoked.  The remote call is wrapped in `withRetry`
only — the source threads it through no `CircuitBreaker`. -/
def validateWorker (employeeId : String) (remote : Nat → Except ApiError String)
    (extractWid : String → Option String) : WorkerValidationResult × Nat :=
  if ¬ wd_validateEmployeeId employeeId then
    (⟨false, none, some "Invalid employee ID format. Must be 3-12 digits."⟩, 0)
  else
    let tr := withRetry apiRetryOptions remote
    match tr.result with
    | Except.ok resp =>
      match extractWid resp with
      | some wid => (⟨true, some wid, none⟩, tr.invocations)
      | none => (⟨false, none, some "Worker not found"⟩, tr.invocations)
    | Except.error _ => (⟨false, none, some "Validation failed"⟩, tr.invocations)

/-- List-level test that `pat` occurs at the head of `s`. -/
def startsWithL : List Char → List Char → Bool
  | _, [] => true
  | [], _ :: _ => false
  | a :: as, b :: bs => a == b && startsWithL as bs

/-- List-level test that `pat` occurs somewhere inside `s` — the embedding of
JavaScript `String.prototype.includes`. -/
def containsSubstrL : List Char → List Char → Bool
  | [], pat => startsWithL [] pat
  | c :: rest, pat => startsWithL (c :: rest) pat || containsSubstrL rest pat

/-- String containment, `s.includes(pat)`. -/
def containsSubstr (s pat : String) : Bool :=
  containsSubstrL s.toList pat.toList

/-- `isUploadSuccessful` (workday-api.ts lines 197-203): no fault and no
validation error in the SOAP response, and one of the two success markers
present. -/
def isUploadSuccessful (soapResponse : String) : Bool :=
  !containsSubstr soapResponse "soap:Fault" &&
    !containsSubstr soapResponse "bsvc:Validation_Error" &&
    (containsSubstr soapResponse "Put_Worker_Document_Response" ||
      containsSubstr soapResponse "bsvc:Worker_Document_Reference")

/-- `uploadDocument` (workday-api.ts lines 89-145).  The three local format
guards run before any remote interaction; only then is the SOAP submission
issued through `withRetry`.  Any thrown error (transport failure after
retries, or the token fetch) is caught and reported as `false` (lines
137-144), so the embedding is a total function into `Bool`.  Returns the
success flag together with the number of remote SOAP invocations. -/
def uploadDocument (doc : WorkerDocument) (workerWid : String)
    (remote : Nat → Except ApiError String) : Bool × Nat :=
  if ¬ wd_validateEmployeeId doc.employeeId then (false, 0)
  else if ¬ validateWid workerWid then (false, 0)
  else if ¬ validateWid doc.categoryWid then (false, 0)
  else
    let tr := withRetry apiRetryOptions remote
    match tr.result with
    | Except.ok resp => (isUploadSuccessful resp, tr.invocations)
    | Except.error _ => (false, tr.invocations)

/-! ## File processor employee-id extraction (src/services/file-processor.ts lines 175-198) -/

/-- `FileProcessor.validateEmployeeId` (file-processor.ts lines 193-198):
the test of `^\d{4,12}$` conjoined with the redundant explicit length
bounds. -/
def fp_validateEmployeeId (employeeId : String) : Bool :=
  (employeeId.data.all Char.isDigit &&
      decide (4 ≤ employeeId.data.length) && decide (employeeId.data.length ≤ 12)) &&
    decide (4 ≤ employeeId.data.length) && decide (employeeId.data.length ≤ 12)

/-- `FileProcessor.extractEmployeeId` (file-processor.ts lines 175-188): the
match of `^(\d+)-.*\.` captures the maximal leading digit run (digits and
`-` are disjoint, so greedy matching is deterministic), requires a `-`
immediately after it and a `.` somewhere later, and the captured run must
pass the 4-to-12-digit validation. -/
def extractEmployeeId (filename : String) : Option String :=
  let digits := filename.data.takeWhile Char.isDigit
  let rest := filename.data.drop digits.length
  if digits.length = 0 then none
  else if rest.take 1 ≠ ['-'] then none
  else if ¬ (rest.drop 1).contains '.' then none
  else if fp_validateEmployeeId ⟨digits⟩ then some ⟨digits⟩
  else none

/-- The early-return format guard of `validateWorker` (workday-api.ts lines
52-57) in isolation: the error it returns, if any. -/
def validateWorkerFormatError (employeeId : String) : Option String :=
  if ¬ wd_validateEmployeeId employeeId then
    some "Invalid employee ID format. Must be 3-12 digits."
  else
    none

/-! ## Theorems -/

/-- Looking up a key in a list from which every pair with that key has been
filtered out yields nothing. -/
theorem lookup_filter_ne (k : String) (cache : List (String × WorkerCacheEntry)) :
    List.lookup k (cache.filter (fun p => p.1 != k)) = none := by
  induction cache with
  | nil => rfl
  | cons p ps ih =>
    by_cases h : p.1 = k
    · simp [List.filter_cons, h, ih]
    · simp only [List.filter_cons, bne_iff_ne, ne_eq, h, not_false_eq_true, ite_true,
        List.lookup]
      have hk : (k == p.1) = false := by simp [Ne.symm h]
      simp only [hk]
      exact ih

/-- C7 counterexample: when `now - validatedAt` equals the TTL exactly, the
lookup still returns the cached id (the source evicts only when the age
strictly exceeds the TTL), contradicting the claim that the cached id is
returned only while `now - validatedAt < TTL` and the entry is evicted at
equality. -/
theorem C7_ttl_boundary_counterexample :
    (getFromWorkerCache [("1234", ⟨"wid1", 0⟩)] "1234" WORKER_CACHE_TTL).1
        = some "wid1" ∧
      ¬ (WORKER_CACHE_TTL - 0 < WORKER_CACHE_TTL) := by
  constructor
  · rfl
  · decide

/-- C7 (amended): for every cached subjectId, a lookup returns the cached
resolved id exactly when `now - validatedAt ≤ TTL` (TTL = 1 hour); when the
age strictly exceeds the TTL the entry is evicted and the lookup returns
empty, and the fresh validation stored through `addToWorkerCache` overwrites
the entry's timestamp with the current time. -/
theorem C7_ttl_lookup :
    (∀ (cache : WorkerCache) (employeeId : String) (now : Nat)
       (entry : WorkerCacheEntry),
       List.lookup employeeId cache = some entry →
       (now - entry.validatedAt ≤ WORKER_CACHE_TTL →
         getFromWorkerCache cache employeeId now = (some entry.workerWid, cache)) ∧
       (WORKER_CACHE_TTL < now - entry.validatedAt →
         (getFromWorkerCache cache employeeId now).1 = none ∧
         List.lookup employeeId (getFromWorkerCache cache employeeId now).2 = none)) ∧
    (∀ (cache : WorkerCache) (employeeId workerWid : String) (now : Nat),
       List.lookup employeeId (addToWorkerCache cache employeeId workerWid now)
         = some ⟨workerWid, now⟩) := by
  constructor
  · intro cache employeeId now entry hl
    constructor
    · intro hle
      simp only [getFromWorkerCache, hl]
      rw [if_neg (by omega)]
    · intro hgt
      simp only [getFromWorkerCache, hl]
      rw [if_pos hgt]
      exact ⟨rfl, lookup_filter_ne employeeId cache⟩
  · intro cache employeeId workerWid now
    simp [addToWorkerCache, List.lookup]

/-- C7 witness: evaluating the amended theorem at a concrete cache entry, one
lookup inside the TTL and the overwrite of the timestamp. -/
theorem C7_ttl_lookup_witness :
    getFromWorkerCache [("1234", ⟨"wid1", 5⟩)] "1234" 3600005
        = (some "wid1", [("1234", ⟨"wid1", 5⟩)]) ∧
      List.lookup "1234" (addToWorkerCache [] "1234" "wid2" 77)
        = some ⟨"wid2", 77⟩ :=
  ⟨(C7_ttl_lookup.1 [("1234", ⟨"wid1", 5⟩)] "1234" 3600005 ⟨"wid1", 5⟩ rfl).1
      (by decide),
    C7_ttl_lookup.2 [] "1234" "wid2" 77⟩

/-- C8: the token cache check returns a cached credential only while `now`
is strictly before its stored expiry; whenever the cache is missing or
expired the decision is to refresh; and the expiry stored by a refresh is a
fixed 55-minute window from now, identical whatever lifetime the server
advertises. -/
theorem C8_token_cache_expiry :
    (∀ (cache : Option (Nat × Nat)) (now tok : Nat),
       getAccessTokenDecision cache now = TokenDecision.useCached tok →
       ∃ exp, cache = some (tok, exp) ∧ now < exp) ∧
    (∀ (cache : Option (Nat × Nat)) (now : Nat),
       cacheNotLive cache now →
       getAccessTokenDecision cache now = TokenDecision.refresh) ∧
    (∀ now a b : Nat,
       fetchNewTokenExpiry now a = now + 3300000 ∧
       fetchNewTokenExpiry now a = fetchNewTokenExpiry now b) := by
  refine ⟨?_, ?_, ?_⟩
  · intro cache now tok h
    match cache with
    | none => exact absurd h (by simp [getAccessTokenDecision])
    | some (t, e) =>
      by_cases hlt : now < e
      · simp only [getAccessTokenDecision, if_pos hlt, TokenDecision.useCached.injEq] at h
        exact ⟨e, by rw [h], hlt⟩
      · simp [getAccessTokenDecision, if_neg hlt] at h
  · intro cache now h
    match cache with
    | none => rfl
    | some (t, e) =>
      have : e ≤ now := h t e rfl
      simp [getAccessTokenDecision, show ¬ now < e by omega]
  · intro now a b
    exact ⟨rfl, rfl⟩

/-- C8 witness: at the very instant of expiry the cached token is not
returned and a refresh is decided instead. -/
theorem C8_token_cache_expiry_witness :
    getAccessTokenDecision (some (7, 50)) 50 = TokenDecision.refresh :=
  C8_token_cache_expiry.2.1 (some (7, 50)) 50
    (by intro tok exp h; cases h; omega)

/-- The file processor's 4-to-12-digit employee-id validation implies the
API service's 3-to-12-digit validation. -/
theorem fp_validate_imp_wd_validate (s : String)
    (h : fp_validateEmployeeId s = true) : wd_validateEmployeeId s = true := by
  simp only [fp_validateEmployeeId, Bool.and_eq_true, decide_eq_true_eq] at h
  have hd : s.data.all Char.isDigit = true := by tauto
  have h4 : 4 ≤ s.data.length := by tauto
  have h12 : s.data.length ≤ 12 := by tauto
  have h3 : 3 ≤ s.data.length := by omega
  unfold wd_validateEmployeeId
  rw [hd, decide_eq_true h3, decide_eq_true h12]
  rfl

/-- C9: every employee id accepted by the file processor's local extraction
and validation (exactly 4 to 12 digits) also passes the API service's
3-to-12-digit format check, so for locally validated items the early-return
branch of `validateWorker` with the error message about 3-12 digits is never
taken. -/
theorem C9_employee_id_compat (filename e : String)
    (h : extractEmployeeId filename = some e) :
    wd_validateEmployeeId e = true ∧ validateWorkerFormatError e = none := by
  simp only [extractEmployeeId] at h
  split at h
  · exact absurd h (by simp)
  · split at h
    · exact absurd h (by simp)
    · split at h
      · exact absurd h (by simp)
      · split at h
        · have he : (⟨filename.data.takeWhile Char.isDigit⟩ : String) = e := by
            injection h
          have hfp : fp_validateEmployeeId e = true := by
            rw [← he]; assumption
          have hwd := fp_validate_imp_wd_validate e hfp
          exact ⟨hwd, by simp [validateWorkerFormatError, hwd]⟩
        · exact absurd h (by simp)

/-- C9 witness: a concrete filename whose extracted id passes both checks. -/
theorem C9_employee_id_compat_witness :
    wd_validateEmployeeId "12345" = true ∧
      validateWorkerFormatError "12345" = none :=
  C9_employee_id_compat "12345-contract.pdf" "12345" rfl

/-- C10: whenever the worker WID or the document's category WID is not
exactly 32 lowercase hexadecimal characters, `uploadDocument` reports
failure through its boolean result (the embedding is a total function into
`Bool`, mirroring the catch-all of workday-api.ts lines 137-144) and issues
zero remote SOAP invocations; uppercase and dash-separated GUID spellings
are both rejected by `validateWid`. -/
theorem C10_upload_local_guards :
    (∀ (doc : WorkerDocument) (workerWid : String)
       (remote : Nat → Except ApiError String),
       validateWid workerWid = false ∨ validateWid doc.categoryWid = false →
       uploadDocument doc workerWid remote = (false, 0)) ∧
    validateWid "81F5373F398E4550A111264703C3F689" = false ∧
    validateWid "81f5373f-398e-4550-a111-264703c3f689" = false := by
  refine ⟨?_, by decide, by decide⟩
  intro doc workerWid remote h
  by_cases hemp : wd_validateEmployeeId doc.employeeId
  · rcases h with h | h
    · simp [uploadDocument, hemp, h]
    · by_cases hwid : validateWid workerWid
      · simp [uploadDocument, hemp, hwid, h]
      · simp [uploadDocument, hemp, hwid]
  · simp [uploadDocument, hemp]


/-- Callers arriving while a refresh is in flight (and no live cached
credential exists at their arrival time) all join that refresh: the state is
unchanged except that each caller's outcome records the in-flight refresh id.
-/
theorem oauthRun_joiners :
    ∀ (arr : List (Nat × Nat)) (s : OAuthState) (id : Nat),
      s.inFlight = some id →
      (∀ p ∈ arr, cacheNotLive s.cache p.2) →
      oauthRun s (arr.map (fun p => OAuthEvent.arrive p.1 p.2))
        = some { s with outcomes := s.outcomes
                    ++ arr.map (fun p => (p.1, TokenOutcome.joined id)) } := by
  intro arr
  induction arr with
  | nil =>
    intro s id hif hnl
    simp [oauthRun]
  | cons p ps ih =>
    intro s id hif hnl
    have hstep : oauthStep s (OAuthEvent.arrive p.1 p.2)
        = some { s with outcomes := s.outcomes ++ [(p.1, TokenOutcome.joined id)] } := by
      have hp := hnl p (List.mem_cons_self p ps)
      cases hc : s.cache with
      | none => simp [oauthStep, hc, arriveRefresh, hif]
      | some te =>
        obtain ⟨tok, exp⟩ := te
        have hexp : exp ≤ p.2 := hp tok exp (by rw [hc])
        simp [oauthStep, hc, arriveRefresh, hif, show ¬ (p.2 < exp) by omega]
    simp only [List.map_cons, oauthRun, hstep]
    rw [ih { s with outcomes := s.outcomes ++ [(p.1, TokenOutcome.joined id)] } id hif
      (fun q hq => hnl q (List.mem_cons_of_mem p hq))]
    simp

/-- C3: when N callers acquire a credential concurrently (a burst of
arrivals, each while no live cached credential exists and before any
settlement or cleanup), exactly one underlying refresh call is registered —
the first arrival increments the refresh count once and installs the
in-flight handle — and every one of the N callers receives the result of
that single in-flight refresh.  Furthermore, in any enabled transition
sequence the cleanup event that clears the in-flight handle can only fire at
a time `now` for which the refresh has already settled at some `ts` with
`ts + GRACE_DELAY ≤ now`: the handle is cleared only after the refresh
settles, and only after the grace delay. -/
theorem C3_single_flight :
    (∀ (s : OAuthState) (p0 : Nat × Nat) (arr : List (Nat × Nat)),
       s.inFlight = none →
       cacheNotLive s.cache p0.2 →
       (∀ p ∈ arr, cacheNotLive s.cache p.2) →
       oauthRun s ((p0 :: arr).map (fun p => OAuthEvent.arrive p.1 p.2))
         = some { s with
             inFlight := some s.nextId
             settledAt := none
             clearAt := none
             refreshCount := s.refreshCount + 1
             nextId := s.nextId + 1
             outcomes := s.outcomes
                            ++ (p0 :: arr).map
                              (fun p => (p.1, TokenOutcome.joined s.nextId)) }) ∧
    (∀ (s : OAuthState) (ev : OAuthEvent) (s1 : OAuthState),
       (∀ tc, s.clearAt = some tc →
         ∃ ts, s.settledAt = some ts ∧ tc = ts + GRACE_DELAY) →
       oauthStep s ev = some s1 →
       (∀ tc, s1.clearAt = some tc →
         ∃ ts, s1.settledAt = some ts ∧ tc = ts + GRACE_DELAY) ∧
       (∀ now, ev = OAuthEvent.clearHandle now →
         ∃ ts, s.settledAt = some ts ∧ ts + GRACE_DELAY ≤ now)) := by
  constructor
  · intro s p0 arr hif hnl0 hnl
    have hstep0 : oauthStep s (OAuthEvent.arrive p0.1 p0.2)
        = some { s with
            inFlight := some s.nextId
            settledAt := none
            clearAt := none
            refreshCount := s.refreshCount + 1
            nextId := s.nextId + 1
            outcomes := s.outcomes ++ [(p0.1, TokenOutcome.joined s.nextId)] } := by
      cases hc : s.cache with
      | none => simp [oauthStep, hc, arriveRefresh, hif]
      | some te =>
        obtain ⟨tok, exp⟩ := te
        have hexp : exp ≤ p0.2 := hnl0 tok exp (by rw [hc])
        simp [oauthStep, hc, arriveRefresh, hif, show ¬ (p0.2 < exp) by omega]
    simp only [List.map_cons, oauthRun, hstep0]
    rw [oauthRun_joiners arr
      { s with
          inFlight := some s.nextId
          settledAt := none
          clearAt := none
          refreshCount := s.refreshCount + 1
          nextId := s.nextId + 1
          outcomes := s.outcomes ++ [(p0.1, TokenOutcome.joined s.nextId)] }
      s.nextId rfl (fun q hq => hnl q hq)]
    simp
  · intro s ev s1 hinv hstep
    cases ev with
    | arrive c now =>
      refine ⟨?_, fun now' h => OAuthEvent.noConfusion h⟩
      simp only [oauthStep] at hstep
      split at hstep
      · split at hstep
        · injection hstep with h
          subst h
          exact hinv
        · simp only [arriveRefresh] at hstep
          split at hstep
          · injection hstep with h
            subst h
            exact hinv
          · injection hstep with h
            subst h
            intro tc htc
            exact absurd htc (by simp)
      · simp only [arriveRefresh] at hstep
        split at hstep
        · injection hstep with h
          subst h
          exact hinv
        · injection hstep with h
          subst h
          intro tc htc
          exact absurd htc (by simp)
    | settle res now =>
      refine ⟨?_, fun now' h => OAuthEvent.noConfusion h⟩
      simp only [oauthStep] at hstep
      split at hstep
      · injection hstep with h
        subst h
        intro tc htc
        refine ⟨now, rfl, ?_⟩
        have h2 : now + GRACE_DELAY = tc := by injection htc
        omega
      · exact absurd hstep (by simp)
    | clearHandle now =>
      simp only [oauthStep] at hstep
      split at hstep
      · rename_i id0 t hif0 hca
        split at hstep
        · rename_i hle
          injection hstep with h
          subst h
          constructor
          · intro tc htc
            exact absurd htc (by simp)
          · intro now' hev
            have hnow : now = now' := by injection hev
            subst hnow
            obtain ⟨ts, hts, htg⟩ := hinv t hca
            exact ⟨ts, hts, by omega⟩
        · exact absurd hstep (by simp)
      · exact absurd hstep (by simp)

/-- C3 witness: three callers arriving back to back on an empty cache share
one refresh — the refresh count is 1 and all three outcomes name refresh 0.
-/
theorem C3_single_flight_witness :
    oauthRun ⟨none, none, none, none, 0, 0, []⟩
        ([((1 : Nat), (10 : Nat)), (2, 11), (3, 12)].map
          (fun p => OAuthEvent.arrive p.1 p.2))
      = some ⟨none, some 0, none, none, 1, 1,
          [(1, TokenOutcome.joined 0), (2, TokenOutcome.joined 0),
            (3, TokenOutcome.joined 0)]⟩ :=
  C3_single_flight.1 ⟨none, none, none, none, 0, 0, []⟩ (1, 10) [(2, 11), (3, 12)]
    rfl (fun tok exp h => Option.noConfusion h)
    (fun p hp tok exp h => Option.noConfusion h)


/-- `processFile` leaves the check-armed flag untouched. -/
theorem processOne_shouldCheck (s : OrchState) (b : Bool) :
    (processOne s b).shouldCheckForFailures = s.shouldCheckForFailures := by
  unfold processOne
  split <;> rfl

/-- Processing a whole chunk leaves the check-armed flag untouched. -/
theorem foldl_processOne_shouldCheck (chunk : List Bool) :
    ∀ s : OrchState,
      (chunk.foldl processOne s).shouldCheckForFailures = s.shouldCheckForFailures := by
  induction chunk with
  | nil => intro s; rfl
  | cons b bs ih =>
    intro s
    rw [List.foldl_cons, ih, processOne_shouldCheck]

/-- On a list of booleans the counts of `true` and `false` add up to the
length. -/
theorem count_true_add_count_false (bs : List Bool) :
    bs.count true + bs.count false = bs.length := by
  induction bs with
  | nil => rfl
  | cons b bs ih =>
    cases b <;> simp [List.count_cons] <;> omega

/-- The processed results of the chunk loop are the concatenation of a
leading run of the chunk list: a declined prompt cuts the run short, it
never skips into the middle of the list. -/
theorem runChunksFrom_results_join (oracle : Nat → Bool) :
    ∀ (chunks : List (List Bool)) (s : OrchState) (asks processed : Nat),
      ∃ k, (runChunksFrom oracle chunks s asks processed).results
        = (chunks.take k).flatten := by
  intro chunks
  induction chunks with
  | nil =>
    intro s asks processed
    exact ⟨0, rfl⟩
  | cons chunk rest ih =>
    intro s asks processed
    by_cases hsc : (chunk.foldl processOne s).shouldCheckForFailures = true
    · by_cases hstop : (checkConsecutiveFailures (chunk.foldl processOne s)
          (processed + chunk.length) oracle asks).1 = true
      · refine ⟨1, ?_⟩
        simp [runChunksFrom, hsc, hstop]
      · obtain ⟨k, hk⟩ := ih
          (checkConsecutiveFailures (chunk.foldl processOne s)
            (processed + chunk.length) oracle asks).2.1
          (checkConsecutiveFailures (chunk.foldl processOne s)
            (processed + chunk.length) oracle asks).2.2
          (processed + chunk.length)
        refine ⟨k + 1, ?_⟩
        simp [runChunksFrom, hsc, hstop, hk]
    · obtain ⟨k, hk⟩ := ih (chunk.foldl processOne s) asks (processed + chunk.length)
      refine ⟨k + 1, ?_⟩
      simp [runChunksFrom, hsc, hk]

/-- `chunkArray` with the degenerate chunk size 0 (unreachable in the
source, which would loop forever) produces no chunks. -/
theorem chunkArray_zero (l : List Bool) : chunkArray l 0 = [] := by
  cases l <;> simp [chunkArray]

/-- Concatenating the chunks of `chunkArray` with a positive chunk size
restores the original list (auxiliary, fuel on the length). -/
theorem chunkArray_join_aux (m : Nat) :
    ∀ (fuel : Nat) (l : List Bool), l.length ≤ fuel →
      (chunkArray l (m + 1)).flatten = l := by
  intro fuel
  induction fuel with
  | zero =>
    intro l hl
    have : l = [] := List.eq_nil_of_length_eq_zero (Nat.le_zero.mp hl)
    subst this
    simp [chunkArray]
  | succ n ih =>
    intro l hl
    cases l with
    | nil => simp [chunkArray]
    | cons x xs =>
      rw [chunkArray]
      rw [List.flatten_cons]
      rw [ih (xs.drop m) (by simp [List.length_drop] at hl ⊢; omega)]
      rw [List.take_succ_cons, List.cons_append, List.take_append_drop]

/-- Concatenating the chunks of `chunkArray` with a positive chunk size
restores the original list. -/
theorem chunkArray_join (m : Nat) (l : List Bool) :
    (chunkArray l (m + 1)).flatten = l :=
  chunkArray_join_aux m l.length l (Nat.le_refl _)

/-- A list that splits as `res ++ rest` recovers `res` by taking the first
`res.length` elements. -/
theorem take_of_append (res rest l : List Bool) (h : l = res ++ rest) :
    res = l.take res.length := by
  subst h
  exact (List.take_left _ _).symm

/-- C2: after a batch completes with the check armed, at least 10 items
processed overall and a consecutive-failure counter of at least 10, the
orchestrator asks the confirmation oracle.  A no answer stops the run right
there: the loop returns only the batches processed so far and never touches
the remaining chunks.  A yes answer resets the consecutive-failure counter
to zero and the loop proceeds with the remaining batches.  Moreover the
reported successful and failed counts always partition exactly the processed
results, which form an initial segment of the item list — items of
unprocessed batches are counted in neither. -/
theorem C2_safety_valve :
    (∀ (oracle : Nat → Bool) (chunk : List Bool) (rest : List (List Bool))
       (s : OrchState) (asks processed : Nat),
       s.shouldCheckForFailures = true →
       10 ≤ processed + chunk.length →
       10 ≤ (chunk.foldl processOne s).consecutiveFailures →
       oracle asks = false →
       runChunksFrom oracle (chunk :: rest) s asks processed
         = ⟨chunk, true,
             { chunk.foldl processOne s with shouldCheckForFailures := false },
             asks + 1⟩) ∧
    (∀ (oracle : Nat → Bool) (chunk : List Bool) (rest : List (List Bool))
       (s : OrchState) (asks processed : Nat),
       s.shouldCheckForFailures = true →
       10 ≤ processed + chunk.length →
       10 ≤ (chunk.foldl processOne s).consecutiveFailures →
       oracle asks = true →
       runChunksFrom oracle (chunk :: rest) s asks processed
         = ⟨chunk ++ (runChunksFrom oracle rest initialOrchState (asks + 1)
               (processed + chunk.length)).results,
             (runChunksFrom oracle rest initialOrchState (asks + 1)
               (processed + chunk.length)).stopped,
             (runChunksFrom oracle rest initialOrchState (asks + 1)
               (processed + chunk.length)).finalState,
             (runChunksFrom oracle rest initialOrchState (asks + 1)
               (processed + chunk.length)).asks⟩) ∧
    (∀ (files : List Bool) (n : Nat) (oracle : Nat → Bool),
       (uploadAllDocuments files n oracle).successful
           + (uploadAllDocuments files n oracle).failed
         = (uploadAllDocuments files n oracle).results.length ∧
       (uploadAllDocuments files n oracle).results
         = files.take (uploadAllDocuments files n oracle).results.length) := by
  refine ⟨?_, ?_, ?_⟩
  · intro oracle chunk rest s asks processed hsc hp hcf ho
    have hs1 : (chunk.foldl processOne s).shouldCheckForFailures = true := by
      rw [foldl_processOne_shouldCheck]
      exact hsc
    simp [runChunksFrom, checkConsecutiveFailures, hs1, hp, hcf, ho]
  · intro oracle chunk rest s asks processed hsc hp hcf ho
    have hs1 : (chunk.foldl processOne s).shouldCheckForFailures = true := by
      rw [foldl_processOne_shouldCheck]
      exact hsc
    simp [runChunksFrom, checkConsecutiveFailures, hs1, hp, hcf, ho, initialOrchState]
  · intro files n oracle
    constructor
    · exact count_true_add_count_false _
    · cases n with
      | zero =>
        simp [uploadAllDocuments, chunkArray_zero, runChunksFrom]
      | succ m =>
        obtain ⟨k, hk⟩ := runChunksFrom_results_join oracle (chunkArray files (m + 1))
          initialOrchState 0 0
        show (runChunksFrom oracle (chunkArray files (m + 1)) initialOrchState 0 0).results
          = files.take (runChunksFrom oracle (chunkArray files (m + 1))
              initialOrchState 0 0).results.length
        rw [hk]
        have hsplit : files = ((chunkArray files (m + 1)).take k).flatten
            ++ ((chunkArray files (m + 1)).drop k).flatten := by
          rw [← List.flatten_append, List.take_append_drop, chunkArray_join]
        exact take_of_append _ _ _ hsplit

/-- C2 witness: 12 items in chunks of 10 and 2, the first 10 all failing and
a declining oracle — the run stops after the first batch with the remaining
batch untouched, the counter at 10 and one prompt asked. -/
theorem C2_safety_valve_witness :
    runChunksFrom (fun _ => false) [List.replicate 10 false, [true, true]]
        initialOrchState 0 0
      = ⟨List.replicate 10 false, true, ⟨10, false⟩, 1⟩ :=
  C2_safety_valve.1 (fun _ => false) (List.replicate 10 false) [[true, true]]
    initialOrchState 0 0 rfl (by decide) (by decide) rfl

/-- Invariant preservation for one `execute` call: if a non-CLOSED breaker
always carries at least `threshold` recorded failures, the same holds after
any call. -/
theorem cb_execStep_inv (cb : CircuitBreaker) (ev : Nat × Except Unit Unit)
    (hinv : cb.state ≠ CBState.CLOSED → cb.threshold ≤ cb.failures) :
    (cb.execStep ev).state ≠ CBState.CLOSED →
      (cb.execStep ev).threshold ≤ (cb.execStep ev).failures := by
  by_cases hfast : cb.state = CBState.OPEN ∧ ev.1 - cb.lastFailureTime < cb.timeout
  · simp only [CircuitBreaker.execStep, CircuitBreaker.execute, if_pos hfast]
    exact hinv
  · cases hst : cb.state with
    | CLOSED =>
      cases hop : ev.2 with
      | ok a =>
        simp [CircuitBreaker.execStep, CircuitBreaker.execute, hst, hop,
          CircuitBreaker.onSuccess]
      | error e =>
        by_cases hT : cb.threshold ≤ cb.failures + 1
        · simp [CircuitBreaker.execStep, CircuitBreaker.execute, hst, hop,
            CircuitBreaker.onFailure, hT]
        · simp [CircuitBreaker.execStep, CircuitBreaker.execute, hst, hop,
            CircuitBreaker.onFailure, hT]
    | OPEN =>
      have hc : ¬ (ev.1 - cb.lastFailureTime < cb.timeout) := by
        intro hx
        exact hfast ⟨hst, hx⟩
      have hT : cb.threshold ≤ cb.failures := hinv (by simp [hst])
      cases hop : ev.2 with
      | ok a =>
        simp [CircuitBreaker.execStep, CircuitBreaker.execute, hst, hop, hc,
          CircuitBreaker.onSuccess]
      | error e =>
        simp [CircuitBreaker.execStep, CircuitBreaker.execute, hst, hop, hc,
          CircuitBreaker.onFailure, show cb.threshold ≤ cb.failures + 1 by omega]
    | HALF_OPEN =>
      have hT : cb.threshold ≤ cb.failures := hinv (by simp [hst])
      cases hop : ev.2 with
      | ok a =>
        simp [CircuitBreaker.execStep, CircuitBreaker.execute, hst, hop,
          CircuitBreaker.onSuccess]
      | error e =>
        simp [CircuitBreaker.execStep, CircuitBreaker.execute, hst, hop,
          CircuitBreaker.onFailure, show cb.threshold ≤ cb.failures + 1 by omega]

/-- The failure-count invariant holds along any history of `execute` calls.
-/
theorem cb_execSeq_inv (evs : List (Nat × Except Unit Unit)) :
    ∀ cb : CircuitBreaker,
      (cb.state ≠ CBState.CLOSED → cb.threshold ≤ cb.failures) →
      ((cb.execSeq evs).state ≠ CBState.CLOSED →
        (cb.execSeq evs).threshold ≤ (cb.execSeq evs).failures) := by
  induction evs with
  | nil => intro cb h; exact h
  | cons ev rest ih =>
    intro cb h
    rw [CircuitBreaker.execSeq, List.foldl_cons]
    exact ih _ (cb_execStep_inv cb ev h)

/-- Every breaker reachable from a fresh instance satisfies the invariant:
outside CLOSED the failure counter has reached the threshold. -/
theorem cb_reachable_inv (T t : Nat) (cb : CircuitBreaker)
    (h : CircuitBreaker.Reachable T t cb) :
    cb.state ≠ CBState.CLOSED → cb.threshold ≤ cb.failures := by
  obtain ⟨evs, rfl⟩ := h
  exact cb_execSeq_inv evs (CircuitBreaker.mk0 T t) (by intro hne; simp [CircuitBreaker.mk0] at hne)

/-- A run of consecutive operation failures that brings the failure counter
from its current value exactly up to the threshold leaves the breaker OPEN
with `failures = threshold`. -/
theorem cb_execSeq_open (evs : List (Nat × Except Unit Unit)) :
    ∀ cb : CircuitBreaker,
      cb.state = CBState.CLOSED →
      (∀ ev ∈ evs, ev.2 = Except.error ()) →
      cb.failures + evs.length = cb.threshold →
      1 ≤ evs.length →
      (cb.execSeq evs).state = CBState.OPEN ∧
        (cb.execSeq evs).failures = cb.threshold := by
  induction evs with
  | nil =>
    intro cb _ _ _ h
    simp at h
  | cons ev rest ih =>
    intro cb hst hall hsum hlen
    have hev : ev.2 = Except.error () := hall ev (List.mem_cons_self ev rest)
    by_cases hT : cb.threshold ≤ cb.failures + 1
    · have hlen0 : rest.length = 0 := by
        simp only [List.length_cons] at hsum
        omega
      have hrest : rest = [] := List.length_eq_zero.mp hlen0
      subst hrest
      have hone : cb.execSeq [ev] = cb.execStep ev := rfl
      rw [hone]
      simp only [List.length_cons, List.length_nil] at hsum
      simp [CircuitBreaker.execStep, CircuitBreaker.execute, hst, hev,
        CircuitBreaker.onFailure, hT]
      omega
    · have hstep : cb.execStep ev
          = { cb with failures := cb.failures + 1, lastFailureTime := ev.1 } := by
        simp [CircuitBreaker.execStep, CircuitBreaker.execute, hst, hev,
          CircuitBreaker.onFailure, hT]
      have hrec := ih { cb with failures := cb.failures + 1, lastFailureTime := ev.1 }
        (by simp [hst])
        (fun e he => hall e (List.mem_cons_of_mem ev he))
        (by simp only [List.length_cons] at hsum; simp; omega)
        (by simp only [List.length_cons] at hsum; omega)
      rw [CircuitBreaker.execSeq, List.foldl_cons, hstep]
      exact ⟨hrec.1, hrec.2⟩

/-- C4: for every breaker with failure threshold `T ≥ 1` and cool-down `t`:
a history of `T` consecutive failures of the wrapped operation from a fresh
instance leaves the breaker OPEN; while OPEN and within the cool-down every
`execute` call returns the breaker-open error without invoking the wrapped
operation and without changing the breaker; and once the cool-down has
elapsed the breaker admits exactly one trial execution — it is invoked, a
success resets the failure counter to zero and closes the breaker, a failure
re-records the failure timestamp and returns the breaker to OPEN. -/
theorem C4_circuit_breaker :
    (∀ (T t : Nat) (evs : List (Nat × Except Unit Unit)),
       1 ≤ T → evs.length = T →
       (∀ ev ∈ evs, ev.2 = Except.error ()) →
       ((CircuitBreaker.mk0 T t).execSeq evs).state = CBState.OPEN) ∧
    (∀ (cb : CircuitBreaker) (now : Nat) (r : Except Unit Unit),
       cb.state = CBState.OPEN → now - cb.lastFailureTime < cb.timeout →
       cb.execute now r = (CBOutcome.breakerOpen, cb, false)) ∧
    (∀ (T t : Nat) (cb : CircuitBreaker) (now : Nat),
       CircuitBreaker.Reachable T t cb → cb.state = CBState.OPEN →
       cb.timeout ≤ now - cb.lastFailureTime →
       ((cb.execute now (Except.ok () : Except Unit Unit)).2.2 = true ∧
         (cb.execute now (Except.ok () : Except Unit Unit)).2.1.state = CBState.CLOSED ∧
         (cb.execute now (Except.ok () : Except Unit Unit)).2.1.failures = 0) ∧
       ((cb.execute now (Except.error () : Except Unit Unit)).2.2 = true ∧
         (cb.execute now (Except.error () : Except Unit Unit)).2.1.state = CBState.OPEN ∧
         (cb.execute now (Except.error () : Except Unit Unit)).2.1.lastFailureTime = now)) := by
  refine ⟨?_, ?_, ?_⟩
  · intro T t evs hT hlen hall
    have := cb_execSeq_open evs (CircuitBreaker.mk0 T t) rfl hall
      (by simp [CircuitBreaker.mk0, hlen]) (by omega)
    exact this.1
  · intro cb now r hst hcool
    simp [CircuitBreaker.execute, hst, hcool]
  · intro T t cb now hreach hst hcool
    have hinv := cb_reachable_inv T t cb hreach (by simp [hst])
    have hnc : ¬ (cb.state = CBState.OPEN ∧ now - cb.lastFailureTime < cb.timeout) := by
      intro hc
      omega
    have hc2 : ¬ (now - cb.lastFailureTime < cb.timeout) := by omega
    constructor
    · simp [CircuitBreaker.execute, hnc, hc2, hst, CircuitBreaker.onSuccess]
    · simp [CircuitBreaker.execute, hnc, hc2, hst, CircuitBreaker.onFailure,
        show cb.threshold ≤ cb.failures + 1 by omega]

/-- C4 witness: a fresh breaker with threshold 2 is OPEN after two
consecutive operation failures. -/
theorem C4_circuit_breaker_witness :
    ((CircuitBreaker.mk0 2 60000).execSeq
        [(5, Except.error ()), (9, Except.error ())]).state = CBState.OPEN :=
  C4_circuit_breaker.1 2 60000 [(5, Except.error ()), (9, Except.error ())]
    (by decide) rfl (by intro ev hev; fin_cases hev <;> rfl)

/-- One-step equation of the retry loop: a successful attempt stops at once.
-/
theorem withRetryGo_succ_ok (opts : RetryOptions E) (op : Nat → Except E A)
    (f attempt : Nat) (lastError : Option E) (a : A) (h : op attempt = Except.ok a) :
    withRetryGo opts op (f + 1) attempt lastError = ⟨Except.ok a, 1, []⟩ := by
  simp only [withRetryGo, h]

/-- One-step equation of the retry loop: a failure on the final attempt of
the budget stops with that error. -/
theorem withRetryGo_succ_exhaust (opts : RetryOptions E) (op : Nat → Except E A)
    (f attempt : Nat) (lastError : Option E) (e : E) (h : op attempt = Except.error e)
    (hM : opts.maxAttempts ≤ attempt) :
    withRetryGo opts op (f + 1) attempt lastError = ⟨Except.error (some e), 1, []⟩ := by
  simp only [withRetryGo, h, if_pos hM]

/-- One-step equation of the retry loop: a non-retryable failure stops with
that error without sleeping. -/
theorem withRetryGo_succ_noretry (opts : RetryOptions E) (op : Nat → Except E A)
    (f attempt : Nat) (lastError : Option E) (e : E) (h : op attempt = Except.error e)
    (hM : ¬ opts.maxAttempts ≤ attempt) (hR : opts.shouldRetry e = false) :
    withRetryGo opts op (f + 1) attempt lastError = ⟨Except.error (some e), 1, []⟩ := by
  simp only [withRetryGo, h, if_neg hM, if_pos hR]

/-- One-step equation of the retry loop: a retryable failure with budget
left sleeps the backoff delay and continues with the next attempt. -/
theorem withRetryGo_succ_retry (opts : RetryOptions E) (op : Nat → Except E A)
    (f attempt : Nat) (lastError : Option E) (e : E) (h : op attempt = Except.error e)
    (hM : ¬ opts.maxAttempts ≤ attempt) (hR : opts.shouldRetry e = true) :
    withRetryGo opts op (f + 1) attempt lastError
      = ⟨(withRetryGo opts op f (attempt + 1) (some e)).result,
          (withRetryGo opts op f (attempt + 1) (some e)).invocations + 1,
          retryDelay opts attempt :: (withRetryGo opts op f (attempt + 1) (some e)).delays⟩ := by
  have hR2 : ¬ opts.shouldRetry e = false := by simp [hR]
  simp only [withRetryGo, h, if_neg hM, if_neg hR2]

/-- Every entry of the delay list produced by the retry loop started at
`attempt` is the backoff delay of the attempt it follows: the entry at index
`k` equals `retryDelay opts (attempt + k)`. -/
theorem withRetryGo_delay_get (opts : RetryOptions E) (op : Nat → Except E A) :
    ∀ (fuel attempt : Nat) (lastError : Option E) (k : Nat) (d : Nat),
      (withRetryGo opts op fuel attempt lastError).delays.get? k = some d →
      d = retryDelay opts (attempt + k) := by
  intro fuel
  induction fuel with
  | zero =>
    intro attempt lastError k d hd
    simp [withRetryGo] at hd
  | succ f ih =>
    intro attempt lastError k d hd
    cases hop : op attempt with
    | ok a =>
      rw [withRetryGo_succ_ok opts op f attempt lastError a hop] at hd
      simp at hd
    | error e =>
      by_cases hM : opts.maxAttempts ≤ attempt
      · rw [withRetryGo_succ_exhaust opts op f attempt lastError e hop hM] at hd
        simp at hd
      · cases hR : opts.shouldRetry e with
        | false =>
          rw [withRetryGo_succ_noretry opts op f attempt lastError e hop hM hR] at hd
          simp at hd
        | true =>
          rw [withRetryGo_succ_retry opts op f attempt lastError e hop hM hR] at hd
          cases k with
          | zero =>
            simp only [List.get?_cons_zero, Option.some.injEq] at hd
            rw [← hd]
            rfl
          | succ k =>
            simp only [List.get?_cons_succ] at hd
            rw [ih (attempt + 1) (some e) k d hd]
            congr 1
            omega

/-- C5: in every run of `withRetry`, the delay slept between attempt `n` and
attempt `n + 1` (the entry at index `n - 1` of the delay trace) equals
`min(baseDelay * backoffMultiplier ^ (n - 1), maxDelay)` — deterministic,
no jitter; and for the default policy (`baseDelay = 1000`,
`backoffMultiplier = 2`, `maxDelay = 30000`) an always-failing retryable
operation under an 8-attempt budget sleeps exactly
1000, 2000, 4000, 8000, 16000, 30000, 30000 ms, capped at 30000. -/
theorem C5_backoff_delays :
    (∀ (E A : Type) (opts : RetryOptions E) (op : Nat → Except E A) (n d : Nat),
       (withRetry opts op).delays.get? (n - 1) = some d →
       d = min (opts.baseDelay * opts.backoffMultiplier ^ (n - 1)) opts.maxDelay) ∧
      (withRetry retryOptions8 alwaysServerError).delays
        = [1000, 2000, 4000, 8000, 16000, 30000, 30000] := by
  constructor
  · intro E A opts op n d hd
    rw [withRetryGo_delay_get opts op opts.maxAttempts 1 none (n - 1) d hd,
      retryDelay, (by omega : 1 + (n - 1) - 1 = n - 1)]
  · rfl

/-- C5 witness: the general formula applied to the default 8-attempt policy
at `n = 3`: the third delay actually slept is `min(1000 * 2 ^ 2, 30000)`. -/
theorem C5_backoff_delays_witness :
    (4000 : Nat) = min (retryOptions8.baseDelay * retryOptions8.backoffMultiplier ^ (3 - 1))
      retryOptions8.maxDelay :=
  C5_backoff_delays.1 ApiError String retryOptions8 alwaysServerError 3 4000 rfl

/-- A retry loop with at least one remaining iteration invokes the wrapped
operation at least once. -/
theorem withRetryGo_invocations_pos (opts : RetryOptions E) (op : Nat → Except E A)
    (fuel attempt : Nat) (lastError : Option E) (hf : 1 ≤ fuel) :
    1 ≤ (withRetryGo opts op fuel attempt lastError).invocations := by
  cases fuel with
  | zero => omega
  | succ f =>
    cases hop : op attempt with
    | ok a =>
      rw [withRetryGo_succ_ok opts op f attempt lastError a hop]
    | error e =>
      by_cases hM : opts.maxAttempts ≤ attempt
      · rw [withRetryGo_succ_exhaust opts op f attempt lastError e hop hM]
      · cases hR : opts.shouldRetry e with
        | false =>
          rw [withRetryGo_succ_noretry opts op f attempt lastError e hop hM hR]
        | true =>
          rw [withRetryGo_succ_retry opts op f attempt lastError e hop hM hR]
          exact Nat.le_add_left 1 _

/-- Retry loop run on a failure history that is retryable before attempt `n`
and non-retryable (or budget-exhausting) at attempt `n`: the loop stops at
attempt `n` with the attempt-`n` error, having invoked the operation
`n + 1 - attempt` times and slept `n - attempt` delays. -/
theorem withRetryGo_stops_at (opts : RetryOptions E) (op : Nat → Except E A)
    (n : Nat) (e : E) :
    ∀ (fuel attempt : Nat) (lastError : Option E),
      attempt + fuel = opts.maxAttempts + 1 →
      attempt ≤ n → n ≤ opts.maxAttempts →
      (∀ i, attempt ≤ i → i < n →
        ∃ ei, op i = Except.error ei ∧ opts.shouldRetry ei = true) →
      op n = Except.error e → opts.shouldRetry e = false →
      (withRetryGo opts op fuel attempt lastError).result = Except.error (some e) ∧
      (withRetryGo opts op fuel attempt lastError).invocations = n + 1 - attempt ∧
      (withRetryGo opts op fuel attempt lastError).delays.length = n - attempt := by
  intro fuel
  induction fuel with
  | zero =>
    intro attempt lastError hinv h1 h2 _ _ _
    omega
  | succ f ih =>
    intro attempt lastError hinv h1 h2 hpre hn hnr
    by_cases heq : attempt = n
    · subst heq
      by_cases hM : opts.maxAttempts ≤ attempt
      · rw [withRetryGo_succ_exhaust opts op f attempt lastError e hn hM]
        exact ⟨rfl, by simp, by simp⟩
      · rw [withRetryGo_succ_noretry opts op f attempt lastError e hn hM hnr]
        exact ⟨rfl, by simp, by simp⟩
    · have hlt : attempt < n := Nat.lt_of_le_of_ne h1 heq
      obtain ⟨ei, hei, hrei⟩ := hpre attempt (Nat.le_refl attempt) hlt
      have hM : ¬ opts.maxAttempts ≤ attempt := by omega
      rw [withRetryGo_succ_retry opts op f attempt lastError ei hei hM hrei]
      have hrec := ih (attempt + 1) (some ei) (by omega) hlt h2
        (fun i hi1 hi2 => hpre i (by omega) hi2) hn hnr
      refine ⟨hrec.1, ?_, ?_⟩
      · show (withRetryGo opts op f (attempt + 1) (some ei)).invocations + 1
          = n + 1 - attempt
        rw [hrec.2.1]
        omega
      · show (retryDelay opts attempt
            :: (withRetryGo opts op f (attempt + 1) (some ei)).delays).length
          = n - attempt
        rw [List.length_cons, hrec.2.2]
        omega

/-- If the retry loop throws an error that came from the operation, some
attempt `n` produced that error, the loop invoked the operation exactly
`n + 1 - attempt` times, and attempt `n` either exhausted the budget or was
classified non-retryable. -/
theorem withRetryGo_error_src (opts : RetryOptions E) (op : Nat → Except E A)
    (e : E) :
    ∀ (fuel attempt : Nat) (lastError : Option E),
      opts.maxAttempts + 1 ≤ attempt + fuel →
      (withRetryGo opts op fuel attempt lastError).result = Except.error (some e) →
      ((withRetryGo opts op fuel attempt lastError).invocations = 0 ∧
          lastError = some e) ∨
        ∃ n, attempt ≤ n ∧ op n = Except.error e ∧
          (withRetryGo opts op fuel attempt lastError).invocations = n + 1 - attempt ∧
          (opts.maxAttempts ≤ n ∨ opts.shouldRetry e = false) := by
  intro fuel
  induction fuel with
  | zero =>
    intro attempt lastError hinv hres
    left
    refine ⟨rfl, ?_⟩
    simp only [withRetryGo] at hres
    injection hres
  | succ f ih =>
    intro attempt lastError hinv hres
    cases hop : op attempt with
    | ok a =>
      rw [withRetryGo_succ_ok opts op f attempt lastError a hop] at hres
      simp at hres
    | error e0 =>
      by_cases hM : opts.maxAttempts ≤ attempt
      · rw [withRetryGo_succ_exhaust opts op f attempt lastError e0 hop hM] at hres ⊢
        have he : e0 = e := by simpa using hres
        subst he
        right
        exact ⟨attempt, Nat.le_refl attempt, hop, by simp, Or.inl hM⟩
      · cases hR : opts.shouldRetry e0 with
        | false =>
          rw [withRetryGo_succ_noretry opts op f attempt lastError e0 hop hM hR] at hres ⊢
          have he : e0 = e := by simpa using hres
          subst he
          right
          exact ⟨attempt, Nat.le_refl attempt, hop, by simp, Or.inr hR⟩
        | true =>
          rw [withRetryGo_succ_retry opts op f attempt lastError e0 hop hM hR] at hres ⊢
          have hres2 : (withRetryGo opts op f (attempt + 1) (some e0)).result
              = Except.error (some e) := hres
          have hrec := ih (attempt + 1) (some e0) (by omega) hres2
          rcases hrec with ⟨hz, _⟩ | ⟨n, hn1, hn2, hn3, hn4⟩
          · have hf1 : 1 ≤ f := by omega
            have := withRetryGo_invocations_pos opts op f (attempt + 1) (some e0) hf1
            omega
          · right
            refine ⟨n, by omega, hn2, ?_, hn4⟩
            show (withRetryGo opts op f (attempt + 1) (some e0)).invocations + 1
              = n + 1 - attempt
            rw [hn3]
            omega

/-- C6: a failure classified non-retryable stops `withRetry` at once — the
operation is not invoked again, no backoff delay is slept after it, and that
error is rethrown even though attempt budget remained; and conversely every
failing `withRetry` run fails with the error of its last invoked attempt,
which either exhausted the budget or was non-retryable. -/
theorem C6_nonretryable_abort :
    (∀ (E A : Type) (opts : RetryOptions E) (op : Nat → Except E A) (n : Nat) (e : E),
       1 ≤ n → n ≤ opts.maxAttempts →
       (∀ i, 1 ≤ i → i < n →
         ∃ ei, op i = Except.error ei ∧ opts.shouldRetry ei = true) →
       op n = Except.error e → opts.shouldRetry e = false →
       (withRetry opts op).result = Except.error (some e) ∧
       (withRetry opts op).invocations = n ∧
       (withRetry opts op).delays.length = n - 1) ∧
    (∀ (E A : Type) (opts : RetryOptions E) (op : Nat → Except E A) (e : E),
       (withRetry opts op).result = Except.error (some e) →
       ∃ n, 1 ≤ n ∧ (withRetry opts op).invocations = n ∧ op n = Except.error e ∧
         (opts.maxAttempts ≤ n ∨ opts.shouldRetry e = false)) := by
  constructor
  · intro E A opts op n e h1 h2 hpre hn hnr
    have := withRetryGo_stops_at opts op n e opts.maxAttempts 1 none (by omega) h1 h2
      (fun i hi1 hi2 => hpre i hi1 hi2) hn hnr
    exact ⟨this.1, this.2.1, this.2.2⟩
  · intro E A opts op e hres
    have := withRetryGo_error_src opts op e opts.maxAttempts 1 none (by omega) hres
    rcases this with ⟨_, hlast⟩ | ⟨n, hn1, hn2, hn3, hn4⟩
    · exact absurd hlast (by simp)
    · exact ⟨n, hn1, hn3, hn2, hn4⟩

/-- C6 witness: with the default 3-attempt policy, a retryable failure on
attempt 1 followed by a non-retryable HTTP 404 on attempt 2 makes
`withRetry` stop after exactly 2 invocations and 1 backoff sleep, rethrowing
the 404 error, although a third attempt remained in the budget. -/
theorem C6_nonretryable_abort_witness :
    (withRetry defaultRetryOptions flakyThen404).result
        = Except.error (some ⟨none, some 404⟩) ∧
      (withRetry defaultRetryOptions flakyThen404).invocations = 2 ∧
      (withRetry defaultRetryOptions flakyThen404).delays.length = 2 - 1 :=
  C6_nonretryable_abort.1 ApiError String defaultRetryOptions flakyThen404 2
    ⟨none, some 404⟩ (by decide) (by decide)
    (by
      intro i hi1 hi2
      have hi : i = 1 := by omega
      subst hi
      exact ⟨⟨some "ECONNRESET", none⟩, rfl, by decide⟩)
    rfl (by decide)

/-- C10 witness: a malformed (uppercase) worker WID makes `uploadDocument`
return `false` with zero remote calls. -/
theorem C10_upload_local_guards_witness :
    uploadDocument
        ⟨"12345", "12345-contract.pdf", "81f5373f398e4550a111264703c3f689", "", "application/pdf"⟩
        "81F5373F398E4550A111264703C3F689"
        (fun _ => Except.error ⟨none, some 500⟩)
      = (false, 0) :=
  C10_upload_local_guards.1 _ _ _ (Or.inl (by decide))

/-- C1: the source wires no circuit breaker into the remote subject
validation or the remote submission: whatever the state of any
`CircuitBreaker` instance — in particular one that is OPEN with its
cool-down not yet elapsed, exactly the situation in which the claim requires
a fast failure without a remote call — a locally valid `validateWorker` or
`uploadDocument` call still invokes the remote SOAP operation at least once
(through the retry layer alone). -/
theorem C1_no_breaker_on_remote_calls :
    ∀ (cb : CircuitBreaker) (now : Nat) (employeeId : String)
      (remote : Nat → Except ApiError String) (extractWid : String → Option String)
      (doc : WorkerDocument) (workerWid : String),
      cb.state = CBState.OPEN → now - cb.lastFailureTime < cb.timeout →
      (wd_validateEmployeeId employeeId = true →
        1 ≤ (validateWorker employeeId remote extractWid).2) ∧
      (wd_validateEmployeeId doc.employeeId = true → validateWid workerWid = true →
        validateWid doc.categoryWid = true →
        1 ≤ (uploadDocument doc workerWid remote).2) := by
  intro cb now employeeId remote extractWid doc workerWid hst hcool
  have hpos : 1 ≤ (withRetry apiRetryOptions remote).invocations :=
    withRetryGo_invocations_pos apiRetryOptions remote apiRetryOptions.maxAttempts 1
      none (by decide)
  constructor
  · intro hemp
    cases hres : (withRetry apiRetryOptions remote).result with
    | ok resp =>
      cases hw : extractWid resp with
      | some wid => simpa [validateWorker, hemp, hres, hw] using hpos
      | none => simpa [validateWorker, hemp, hres, hw] using hpos
    | error e => simpa [validateWorker, hemp, hres] using hpos
  · intro hemp hwid hcat
    cases hres : (withRetry apiRetryOptions remote).result with
    | ok resp => simpa [uploadDocument, hemp, hwid, hcat, hres] using hpos
    | error e => simpa [uploadDocument, hemp, hwid, hcat, hres] using hpos

/-- C1 witness: with a breaker that is OPEN inside its cool-down, a valid
subject validation against an all-failing remote still performs remote
invocations. -/
theorem C1_no_breaker_on_remote_calls_witness :
    1 ≤ (validateWorker "12345" alwaysServerError (fun _ => none)).2 :=
  (C1_no_breaker_on_remote_calls ⟨5, 60000, 5, 0, CBState.OPEN⟩ 30 "12345"
      alwaysServerError (fun _ => none)
      ⟨"12345", "12345-contract.pdf", "81f5373f398e4550a111264703c3f689", "",
        "application/pdf"⟩
      "81f5373f398e4550a111264703c3f689" rfl (by decide)).1 (by decide)

end WorkDocs
